import Mathlib

/-!
Verification of the event value model and path-addressable mutation contract
of the vector observability pipeline fork.

The development shallowly embeds the code of `src/event/log_event.rs`,
`src/event/vrl_target.rs` (the "flat" target implementation) and
`src/event/vrl_target/{mod,log,metric}.rs` (the "module" target
implementation).  Types that the repository defines outside the provided
sources (the `Value` union, `Metric`, `EventMetadata`, the path type and the
key-granular field helpers) are modelled from the specification; each such
definition carries a doc comment starting with `Modelled from the spec:`.

Paths are modelled as lists of field-name segments with `[]` denoting the
root path.  Array-index segments are omitted from the model: every claim
under consideration concerns field paths or the root, and the handling of
index segments by the metric adapter is decided by path code that is not in
the provided sources (the spec states only that paths outside the whitelist
fail with InvalidPath).
-/

/-- Modelled from the spec: the `Value` tagged union (§3) of the event model
(`Value` in the repository, not under the provided sources).  Scalar kinds
kept are those exercised by the claims: bytes/strings, integers, booleans,
timestamps (opaque ticks) and null; maps are association lists with the
sorted-unique-keys discipline of `BTreeMap` maintained by the operations
below; floats and regexes are never inspected by any claimed operation and
are omitted. -/
inductive Value where
  | bytes (s : String)
  | integer (n : Int)
  | boolean (b : Bool)
  | timestamp (t : Nat)
  | null
  | array (xs : List Value)
  | map (entries : List (String × Value))
  deriving Repr

mutual

/-- Structural equality test on `Value` (Lean cannot derive decidable
equality for this nested inductive). -/
def Value.beq : Value → Value → Bool
  | .bytes a, .bytes b => a == b
  | .integer a, .integer b => a == b
  | .boolean a, .boolean b => a == b
  | .timestamp a, .timestamp b => a == b
  | .null, .null => true
  | .array xs, .array ys => Value.beqList xs ys
  | .map xs, .map ys => Value.beqEntries xs ys
  | _, _ => false

def Value.beqList : List Value → List Value → Bool
  | [], [] => true
  | x :: xs, y :: ys => Value.beq x y && Value.beqList xs ys
  | _, _ => false

def Value.beqEntries :
    List (String × Value) → List (String × Value) → Bool
  | [], [] => true
  | (k, x) :: xs, (l, y) :: ys =>
    k == l && Value.beq x y && Value.beqEntries xs ys
  | _, _ => false

end

mutual

theorem Value.beq_refl : ∀ v : Value, Value.beq v v = true
  | .bytes _ | .integer _ | .boolean _ | .timestamp _ | .null => by
    simp [Value.beq]
  | .array xs => by simp [Value.beq, Value.beqList_refl xs]
  | .map xs => by simp [Value.beq, Value.beqEntries_refl xs]

theorem Value.beqList_refl : ∀ xs : List Value, Value.beqList xs xs = true
  | [] => rfl
  | x :: xs => by
    simp [Value.beqList, Value.beq_refl x, Value.beqList_refl xs]

theorem Value.beqEntries_refl :
    ∀ xs : List (String × Value), Value.beqEntries xs xs = true
  | [] => rfl
  | (k, x) :: xs => by
    simp [Value.beqEntries, Value.beq_refl x, Value.beqEntries_refl xs]

end

mutual

theorem Value.eq_of_beq : ∀ {a b : Value}, Value.beq a b = true → a = b
  | .bytes _, .bytes _, h => by
    simpa [Value.beq] using congrArg Value.bytes (by simpa [Value.beq] using h)
  | .integer _, .integer _, h => by
    exact congrArg Value.integer (by simpa [Value.beq] using h)
  | .boolean _, .boolean _, h => by
    exact congrArg Value.boolean (by simpa [Value.beq] using h)
  | .timestamp _, .timestamp _, h => by
    exact congrArg Value.timestamp (by simpa [Value.beq] using h)
  | .null, .null, _ => rfl
  | .array _, .array _, h =>
    congrArg Value.array (Value.eqList_of_beq (by simpa [Value.beq] using h))
  | .map _, .map _, h =>
    congrArg Value.map (Value.eqEntries_of_beq (by simpa [Value.beq] using h))

theorem Value.eqList_of_beq :
    ∀ {xs ys : List Value}, Value.beqList xs ys = true → xs = ys
  | [], [], _ => rfl
  | x :: xs, y :: ys, h => by
    have h' := h
    simp only [Value.beqList, Bool.and_eq_true] at h'
    exact congrArg₂ List.cons (Value.eq_of_beq h'.1) (Value.eqList_of_beq h'.2)

theorem Value.eqEntries_of_beq :
    ∀ {xs ys : List (String × Value)}, Value.beqEntries xs ys = true → xs = ys
  | [], [], _ => rfl
  | (k, x) :: xs, (l, y) :: ys, h => by
    have h' := h
    simp only [Value.beqEntries, Bool.and_eq_true, beq_iff_eq] at h'
    have hk : k = l := h'.1.1
    have hx : x = y := Value.eq_of_beq h'.1.2
    have hrest : xs = ys := Value.eqEntries_of_beq h'.2
    simp [hk, hx, hrest]

end

theorem Value.beq_iff_eq (a b : Value) : Value.beq a b = true ↔ a = b :=
  ⟨Value.eq_of_beq, fun h => h ▸ Value.beq_refl a⟩

instance : DecidableEq Value := fun a b =>
  decidable_of_iff (Value.beq a b = true) (Value.beq_iff_eq a b)

/-- Whether a `Value` is the Map variant (the load-bearing LogRecord root
invariant of §3). -/
def Value.isMap : Value → Bool
  | Value.map _ => true
  | _ => false

/-- `BTreeMap::get`: first binding of the key (keys are unique in a
`BTreeMap`, so first-match lookup is exact). -/
def mapGet {A : Type} (m : List (String × A)) (k : String) : Option A :=
  match m with
  | [] => none
  | (k', v) :: rest => if k' = k then some v else mapGet rest k

/-- `BTreeMap::insert`: sorted insertion replacing an existing binding. -/
def mapInsert {A : Type} (m : List (String × A)) (k : String) (v : A) :
    List (String × A) :=
  match m with
  | [] => [(k, v)]
  | (k', v') :: rest =>
    if k < k' then (k, v) :: (k', v') :: rest
    else if k = k' then (k, v) :: rest
    else (k', v') :: mapInsert rest k v

/-- `BTreeMap::remove`: drops every binding of the key (keys are unique in a
`BTreeMap`, so this coincides with removing the one entry). -/
def mapErase {A : Type} (m : List (String × A)) (k : String) :
    List (String × A) :=
  m.filter (fun p => p.1 ≠ k)

/-- `BTreeMap::remove` with its returned value. -/
def mapRemove {A : Type} (m : List (String × A)) (k : String) :
    Option A × List (String × A) :=
  (mapGet m k, mapErase m k)

/-- `BTreeMap::contains_key`. -/
def mapContains {A : Type} (m : List (String × A)) (k : String) : Bool :=
  (mapGet m k).isSome

@[simp]
theorem mapGet_nil {A : Type} (k : String) : mapGet ([] : List (String × A)) k = none := rfl

theorem mapGet_mapInsert {A : Type} (m : List (String × A)) (k k' : String) (v : A) :
    mapGet (mapInsert m k v) k' = if k = k' then some v else mapGet m k' := by
  induction m with
  | nil =>
    by_cases h : k = k' <;> simp [mapInsert, mapGet, h]
  | cons p rest ih =>
    obtain ⟨k₀, v₀⟩ := p
    by_cases hlt : k < k₀
    · by_cases h : k = k' <;> by_cases h0 : k₀ = k' <;>
        simp_all [mapInsert, mapGet]
    · by_cases heq : k = k₀
      · subst heq
        by_cases h : k = k' <;> simp [mapInsert, mapGet, hlt, h]
      · by_cases h0 : k₀ = k'
        · subst h0
          simp [mapInsert, mapGet, hlt, heq, Ne.symm heq]
        · simp [mapInsert, mapGet, hlt, heq, h0, ih]

theorem mapGet_mapErase {A : Type} (m : List (String × A)) (k k' : String) :
    mapGet (mapErase m k) k' = if k = k' then none else mapGet m k' := by
  induction m with
  | nil => by_cases h : k = k' <;> simp [mapErase, mapGet, h]
  | cons p rest ih =>
    obtain ⟨k₀, v₀⟩ := p
    by_cases h0 : k₀ = k
    · subst h0
      by_cases h : k₀ = k' <;> simp_all [mapErase, mapGet, List.filter]
    · by_cases h : k₀ = k' <;> by_cases hkk : k = k' <;>
        simp_all [mapErase, mapGet, List.filter]

/-! ## JSON values and the LogEvent round trip

`TryFrom<serde_json::Value> for LogEvent` and `TryInto<serde_json::Value>`
(src/src/event/log_event.rs lines 271-295). -/

/-- Modelled from the spec: the wire object representation
(`serde_json::Value`; not under the provided sources).  Objects are
association lists mirroring `serde_json::Map` (a `BTreeMap` by default);
numbers are modelled as integers (floating point is outside the model). -/
inductive Json where
  | null
  | boolean (b : Bool)
  | num (n : Int)
  | str (s : String)
  | arr (xs : List Json)
  | obj (fields : List (String × Json))

/-- Whether a `Json` value is an object. -/
def Json.isObj : Json → Bool
  | Json.obj _ => true
  | _ => false

mutual

/-- Modelled from the spec: `From<serde_json::Value> for Value` (the `.into()`
per-field conversion used at line 279 of src/src/event/log_event.rs; the
conversion itself is not under the provided sources).  Structure-preserving:
objects become Maps, arrays become Arrays, scalars map to the matching
scalar kind. -/
def jsonToValue : Json → Value
  | .null => Value.null
  | .boolean b => Value.boolean b
  | .num n => Value.integer n
  | .str s => Value.bytes s
  | .arr xs => Value.array (jsonListToValue xs)
  | .obj fields => Value.map (jsonObjToValue fields)

def jsonListToValue : List Json → List Value
  | [] => []
  | j :: rest => jsonToValue j :: jsonListToValue rest

def jsonObjToValue : List (String × Json) → List (String × Value)
  | [] => []
  | (k, j) :: rest => (k, jsonToValue j) :: jsonObjToValue rest

end

mutual

/-- Modelled from the spec: `serde_json::to_value` applied to a `Value`
(the serialization used by `TryInto<serde_json::Value>`; not under the
provided sources).  Inverse-shaped: Maps become objects, Arrays become
arrays, scalars map back; a Timestamp serializes as a string. -/
def valueToJson : Value → Json
  | Value.null => .null
  | Value.boolean b => .boolean b
  | Value.integer n => .num n
  | Value.bytes s => .str s
  | Value.timestamp t => .str (toString t)
  | Value.array xs => .arr (valueListToJson xs)
  | Value.map entries => .obj (valueObjToJson entries)

def valueListToJson : List Value → List Json
  | [] => []
  | v :: rest => valueToJson v :: valueListToJson rest

def valueObjToJson : List (String × Value) → List (String × Json)
  | [] => []
  | (k, v) :: rest => (k, valueToJson v) :: valueObjToJson rest

end

mutual

theorem valueToJson_jsonToValue : ∀ j : Json, valueToJson (jsonToValue j) = j
  | .null | .boolean _ | .num _ | .str _ => rfl
  | .arr xs => by
    simp [jsonToValue, valueToJson, valueListToJson_jsonListToValue xs]
  | .obj fields => by
    simp [jsonToValue, valueToJson, valueObjToJson_jsonObjToValue fields]

theorem valueListToJson_jsonListToValue :
    ∀ xs : List Json, valueListToJson (jsonListToValue xs) = xs
  | [] => rfl
  | j :: rest => by
    simp [jsonListToValue, valueListToJson, valueToJson_jsonToValue j,
      valueListToJson_jsonListToValue rest]

theorem valueObjToJson_jsonObjToValue :
    ∀ fields : List (String × Json),
      valueObjToJson (jsonObjToValue fields) = fields
  | [] => rfl
  | (k, j) :: rest => by
    simp [jsonObjToValue, valueObjToJson, valueToJson_jsonToValue j,
      valueObjToJson_jsonObjToValue rest]

end

/-! ## LogEvent (src/src/event/log_event.rs) -/

/-- Modelled from the spec: `EventMetadata` (§3: opaque, cheaply duplicable
per-record context with a `merge` operation; its definition is not under the
provided sources).  The carrier is an opaque list of tokens so that merging
and duplication are observable. -/
structure EventMetadata where
  items : List Nat
  deriving DecidableEq, Repr

/-- `EventMetadata::default()`. -/
def EventMetadata.default : EventMetadata := ⟨[]⟩

/-- Modelled from the spec: `EventMetadata::merge` (§4.3: record-level
metadata is always merged; the combination itself is opaque, modelled as
concatenation). -/
def EventMetadata.merge (a b : EventMetadata) : EventMetadata :=
  ⟨a.items ++ b.items⟩

/-- Modelled from the spec: the process-wide configured message key name
(`log_schema().message_key()`, §6/§9; the configuration type is not under
the provided sources).  The default key name is used. -/
def messageKey : String := "message"

/-- Modelled from the spec: `log_schema().timestamp_key()` (§6). -/
def timestampKey : String := "timestamp"

/-- `LogEvent` (src/src/event/log_event.rs lines 16-26): a `Value` that must
always be the Map variant, plus metadata. -/
structure LogEvent where
  fields : Value
  metadata : EventMetadata
  deriving DecidableEq, Repr

/-- `LogEvent::as_map` (lines 137-142).  `none` models the `unreachable!()`
panic taken when `fields` is not the Map variant. -/
def LogEvent.as_map (e : LogEvent) : Option (List (String × Value)) :=
  match e.fields with
  | Value.map m => some m
  | _ => none

/-- `impl Default for LogEvent` (lines 28-35). -/
def LogEvent.default : LogEvent :=
  { fields := Value.map [], metadata := EventMetadata.default }

/-- `LogEvent::new_with_metadata` (lines 38-43). -/
def LogEvent.new_with_metadata (md : EventMetadata) : LogEvent :=
  { fields := Value.map [], metadata := md }

/-- `From<BTreeMap<String, Value>> for LogEvent` (lines 237-244). -/
def LogEvent.fromMap (m : List (String × Value)) : LogEvent :=
  { fields := Value.map m, metadata := EventMetadata.default }

/-- `LogEvent::into_parts` (lines 45-52); `none` models the `unreachable!()`
panic. -/
def LogEvent.into_parts (e : LogEvent) :
    Option (List (String × Value) × EventMetadata) :=
  (e.as_map).map (fun m => (m, e.metadata))

/-- `LogEvent::get` (lines 54-57), via the key-granular field helper.
Modelled from the spec: `util::log::get` is not under the provided sources;
at the field-name granularity used by every claim it is map lookup (§4.3
addresses fields by name).  The outer `Option` models the map-invariant
panic. -/
def LogEvent.get (e : LogEvent) (k : String) : Option (Option Value) :=
  (e.as_map).map (fun m => mapGet m k)

/-- `LogEvent::get_flat` (lines 59-62). -/
def LogEvent.get_flat (e : LogEvent) (k : String) : Option (Option Value) :=
  (e.as_map).map (fun m => mapGet m k)

/-- `LogEvent::contains` (lines 69-72). -/
def LogEvent.contains (e : LogEvent) (k : String) : Option Bool :=
  (e.as_map).map (fun m => mapContains m k)

/-- `LogEvent::insert` (lines 74-81), which returns the previous value.
Modelled from the spec: `util::log::insert` is not under the provided
sources; at the field-name granularity used by every claim it is map
insertion returning the prior binding. -/
def LogEvent.insert (e : LogEvent) (k : String) (v : Value) :
    Option (Option Value × LogEvent) :=
  (e.as_map).map (fun m =>
    (mapGet m k, { e with fields := Value.map (mapInsert m k v) }))

/-- `LogEvent::insert_flat` (lines 91-98). -/
def LogEvent.insert_flat (e : LogEvent) (k : String) (v : Value) :
    Option LogEvent :=
  (e.as_map).map (fun m => { e with fields := Value.map (mapInsert m k v) })

/-- `LogEvent::try_insert` (lines 100-106): insert only when the key is
absent. -/
def LogEvent.try_insert (e : LogEvent) (k : String) (v : Value) :
    Option LogEvent :=
  (e.as_map).map (fun m =>
    if mapContains m k then e
    else { e with fields := Value.map (mapInsert m k v) })

/-- `LogEvent::remove` (lines 108-111).  Modelled from the spec:
`util::log::remove` is not under the provided sources; at the field-name
granularity it deletes the binding and returns it (§4.1). -/
def LogEvent.remove (e : LogEvent) (k : String) :
    Option (Option Value × LogEvent) :=
  (e.as_map).map (fun m =>
    ((mapRemove m k).1, { e with fields := Value.map (mapRemove m k).2 }))

/-- `LogEvent::remove_prune` (lines 113-116).  At a single-segment key,
pruning has no ancestor maps to compact, so the pruning flag is inert. -/
def LogEvent.remove_prune (e : LogEvent) (k : String) (_prune : Bool) :
    Option (Option Value × LogEvent) :=
  (e.as_map).map (fun m =>
    ((mapRemove m k).1, { e with fields := Value.map (mapRemove m k).2 }))

/-- `Index<T> for LogEvent` (lines 297-307): `get(key).expect(...)`.
The result is `none` when the lookup panics (either through the map
invariant or through the `expect` on a missing key). -/
def LogEvent.index (e : LogEvent) (k : String) : Option Value :=
  (e.get k).bind id

/-- `Extend<(K, V)> for LogEvent` (lines 309-319): repeated `insert`. -/
def LogEvent.extend (e : LogEvent) (kvs : List (String × Value)) :
    Option LogEvent :=
  match kvs with
  | [] => some e
  | (k, v) :: rest => (e.insert k v).bind (fun r => r.2.extend rest)

/-- `FromIterator<(K, V)> for LogEvent` (lines 322-328): extend the default
event. -/
def LogEvent.fromIter (kvs : List (String × Value)) : Option LogEvent :=
  LogEvent.default.extend kvs

/-- `From<Bytes> for LogEvent` (lines 214-223): a default event with the
message bytes and the capture time inserted under the configured keys.  The
capture instant (`Utc::now()`) is passed explicitly. -/
def LogEvent.fromBytes (message : String) (now : Nat) : Option LogEvent :=
  (LogEvent.default.insert messageKey (Value.bytes message)).bind
    (fun r => (r.2.insert timestampKey (Value.timestamp now)).map (·.2))

/-- `From<String> for LogEvent` and `From<&str>` (lines 225-235): via
`From<Bytes>`. -/
def LogEvent.fromString (message : String) (now : Nat) : Option LogEvent :=
  LogEvent.fromBytes message now

/-- `TryFrom<serde_json::Value> for LogEvent` (lines 271-287). -/
def LogEvent.tryFromJson (j : Json) : Except String LogEvent :=
  match j with
  | Json.obj fields => Except.ok (LogEvent.fromMap (jsonObjToValue fields))
  | _ => Except.error "Attempted to convert non-Object JSON into a LogEvent."

/-- `TryInto<serde_json::Value> for LogEvent` (lines 289-295):
serialization of the field value. -/
def LogEvent.tryIntoJson (e : LogEvent) : Except String Json :=
  Except.ok (valueToJson e.fields)

/-! ## Value-level and record-level merge
(`LogEvent::merge`, src/src/event/log_event.rs lines 190-205). -/

/-- Modelled from the spec: `Value::merge` (§4.1, not under the provided
sources; the in-repository unit test `merge_value_works_correctly` at lines
454-465 of src/src/event/log_event.rs pins the same rule): two byte/string
values concatenate current-then-incoming, every other combination takes the
incoming value. -/
def Value.mergeVal : Value → Value → Value
  | Value.bytes a, Value.bytes b => Value.bytes (a ++ b)
  | _, incoming => incoming

/-- The value stored for a merged field: `Value::merge` into the current
value when one exists, the incoming value otherwise (lines 197-202). -/
def mergeInto : Option Value → Value → Value
  | none, v => v
  | some cv, v => Value.mergeVal cv v

/-- The field loop of `LogEvent::merge` (lines 192-203): for each name, take
the field out of `incoming` (skipping absent ones) and merge it into the
current map.  Returns the current and incoming maps after the loop. -/
def mergeFields (c i : List (String × Value)) :
    List String → List (String × Value) × List (String × Value)
  | [] => (c, i)
  | f :: rest =>
    match mapGet i f with
    | none => mergeFields c i rest
    | some v => mergeFields (mapInsert c f (mergeInto (mapGet c f) v))
        (mapErase i f) rest

/-- `LogEvent::merge` (lines 190-205): merge the whitelisted fields, then
merge the metadata unconditionally.  `none` models the map-invariant
panic. -/
def LogEvent.merge (e incoming : LogEvent) (fields : List String) :
    Option LogEvent :=
  match e.as_map, incoming.as_map with
  | some c, some i =>
    some { fields := Value.map (mergeFields c i fields).1,
           metadata := e.metadata.merge incoming.metadata }
  | _, _ => none

theorem mapGet_mergeFields (fs : List String) :
    ∀ c i : List (String × Value), ∀ f : String,
      mapGet (mergeFields c i fs).1 f =
        if f ∈ fs then
          match mapGet i f with
          | some v => some (mergeInto (mapGet c f) v)
          | none => mapGet c f
        else mapGet c f := by
  induction fs with
  | nil => intro c i f; simp [mergeFields]
  | cons f0 rest ih =>
    intro c i f
    by_cases hf : f = f0
    · subst hf
      cases hv : mapGet i f with
      | none =>
        simp only [mergeFields, hv]
        rw [ih c i f]
        by_cases hmem : f ∈ rest <;> simp [hmem, hv]
      | some v =>
        simp only [mergeFields, hv]
        rw [ih]
        have hi : mapGet (mapErase i f) f = none := by
          simp [mapGet_mapErase]
        by_cases hmem : f ∈ rest <;>
          simp [hmem, hi, hv, mapGet_mapInsert]
    · have hmem : (f ∈ f0 :: rest) ↔ (f ∈ rest) := by
        simp [List.mem_cons, hf]
      cases hv : mapGet i f0 with
      | none =>
        simp only [mergeFields, hv]
        rw [ih c i f]
        simp only [hmem]
      | some v =>
        simp only [mergeFields, hv]
        rw [ih]
        have hi : mapGet (mapErase i f0) f = mapGet i f := by
          simp [mapGet_mapErase, Ne.symm hf]
        have hc : mapGet (mapInsert c f0 (mergeInto (mapGet c f0) v)) f
            = mapGet c f := by
          simp [mapGet_mapInsert, Ne.symm hf]
        rw [hi, hc]
        simp only [hmem]

/-! ## Path-addressed operations on log field maps

Modelled from the spec: the path-walking helpers (`util::log` and the
expression-language value target) are not under the provided sources.
Paths are non-empty lists of field names (§4.2); descent is through Map
segments with auto-vivification on insert (§4.3) and ancestor compaction on
remove (§4.1). -/

/-- Modelled from the spec: path lookup (§4.3 `get`): walk Map segments;
a missing or non-map intermediate yields nothing. -/
def logGetPath : List (String × Value) → List String → Option Value
  | _, [] => none
  | m, [k] => mapGet m k
  | m, k :: k' :: rest =>
    match mapGet m k with
    | some (Value.map sub) => logGetPath sub (k' :: rest)
    | _ => none

/-- Modelled from the spec: path insertion with auto-vivification (§4.3):
missing intermediate segments become empty maps and a non-map value met
mid-path is overwritten by a fresh map. -/
def logInsertPath : List (String × Value) → List String → Value →
    List (String × Value)
  | m, [], _ => m
  | m, [k], v => mapInsert m k v
  | m, k :: k' :: rest, v =>
    match mapGet m k with
    | some (Value.map sub) =>
      mapInsert m k (Value.map (logInsertPath sub (k' :: rest) v))
    | _ => mapInsert m k (Value.map (logInsertPath [] (k' :: rest) v))

/-- Modelled from the spec: path removal (§4.1): delete the addressed leaf;
when `compact` is set, remove ancestor maps that the deletion left empty. -/
def logRemove : List (String × Value) → List String → Bool →
    Option Value × List (String × Value)
  | m, [], _ => (none, m)
  | m, [k], _ => mapRemove m k
  | m, k :: k' :: rest, compact =>
    match mapGet m k with
    | some (Value.map sub) =>
      if compact && (logRemove sub (k' :: rest) compact).2.isEmpty
          && (logRemove sub (k' :: rest) compact).1.isSome then
        ((logRemove sub (k' :: rest) compact).1, mapErase m k)
      else
        ((logRemove sub (k' :: rest) compact).1,
          mapInsert m k (Value.map (logRemove sub (k' :: rest) compact).2))
    | _ => (none, m)

theorem logRemove_twice :
    ∀ p : List String, p ≠ [] → ∀ (m : List (String × Value)) (c : Bool),
      (logRemove (logRemove m p c).2 p c).1 = none := by
  intro p
  induction p with
  | nil => intro h; exact absurd rfl h
  | cons k rest ih =>
    intro _ m c
    cases rest with
    | nil => simp [logRemove, mapRemove, mapGet_mapErase]
    | cons k' rest' =>
      cases hm : mapGet m k with
      | none => simp [logRemove, hm]
      | some v =>
        cases v with
        | map sub =>
          have hrec := ih (by simp) sub c
          by_cases hcond : (c && (logRemove sub (k' :: rest') c).2.isEmpty
              && (logRemove sub (k' :: rest') c).1.isSome) = true
          · simp [logRemove, hm, hcond, mapGet_mapErase]
          · have hget : mapGet
                (mapInsert m k (Value.map (logRemove sub (k' :: rest') c).2)) k
                = some (Value.map (logRemove sub (k' :: rest') c).2) := by
              simp [mapGet_mapInsert]
            simp only [logRemove, hm, hcond, if_false, Bool.false_eq_true,
              if_neg, hget]
            split <;> simp [hrec]
        | bytes s => simp [logRemove, hm]
        | integer n => simp [logRemove, hm]
        | boolean b => simp [logRemove, hm]
        | timestamp t => simp [logRemove, hm]
        | null => simp [logRemove, hm]
        | array xs => simp [logRemove, hm]

/-! ## Metric and the metric target adapters
(src/src/event/vrl_target.rs lines 53-106/113-169/180-208 and
src/src/event/vrl_target/metric.rs). -/

/-- `MetricKind` (§3: enum {Absolute, Incremental}; the type itself is not
under the provided sources — Modelled from the spec). -/
inductive MetricKind where
  | absolute
  | incremental
  deriving DecidableEq, Repr

/-- Modelled from the spec: the tag of the metric value union (§3).  Only
the variant tag is observable through the target contract (`type` is the
derived value-variant tag, never settable), so the numeric payloads are not
carried. -/
inductive MetricValue where
  | counter
  | gauge
  | set
  | distribution
  deriving DecidableEq, Repr

/-- Modelled from the spec: `Metric` (§3): fixed-schema record.  The nested
`series`/`data` struct layout is flattened (`series.name.name ↦ name`,
`series.name.namespace ↦ nameSpace`, `data.timestamp ↦ timestamp`,
`data.kind ↦ kind`, `series.tags ↦ tags`, `data.value ↦ value`). -/
structure Metric where
  name : String
  nameSpace : Option String
  timestamp : Option Nat
  kind : MetricKind
  tags : Option (List (String × String))
  value : MetricValue
  deriving DecidableEq, Repr

/-- Modelled from the spec: `Metric::set_tag_value` (§4.4 tags upsert);
creates the tag map when absent. -/
def Metric.setTagValue (M : Metric) (k v : String) : Metric :=
  { M with tags := some (mapInsert (M.tags.getD []) k v) }

/-- Modelled from the spec: `Metric::tag_value` (§4.4 single-tag read). -/
def Metric.tagValue (M : Metric) (k : String) : Option String :=
  M.tags.bind (fun t => mapGet t k)

/-- Modelled from the spec: `Metric::delete_tag` (§4.4 single-tag removal);
returns the removed tag value, leaving the (possibly empty) tag map in
place. -/
def Metric.deleteTag (M : Metric) (k : String) : Option String × Metric :=
  match M.tags with
  | none => (none, M)
  | some t => (mapGet t k, { M with tags := some (mapErase t k) })

/-- `From<MetricKind> for vrl::Value`: the literal kind string. -/
def MetricKind.toValue : MetricKind → Value
  | .absolute => Value.bytes "absolute"
  | .incremental => Value.bytes "incremental"

/-- Modelled from the spec: `TryFrom<vrl::Value> for MetricKind` (§4.4: the
incoming value must be one of the literal strings "absolute" /
"incremental"; anything else is a TypeError). -/
def MetricKind.tryFrom (v : Value) : Except String MetricKind :=
  match v with
  | Value.bytes "absolute" => Except.ok .absolute
  | Value.bytes "incremental" => Except.ok .incremental
  | _ => Except.error "invalid metric kind"

/-- `From<MetricValue> for vrl::Value`: the derived `type` tag (§3; the
in-repository test pins `"type" => "counter"`). -/
def MetricValue.toValue : MetricValue → Value
  | .counter => Value.bytes "counter"
  | .gauge => Value.bytes "gauge"
  | .set => Value.bytes "set"
  | .distribution => Value.bytes "distribution"

/-- Modelled from the spec: `vrl::Value::try_object` (§7 TypeError when the
runtime shape does not match). -/
def Value.tryObject : Value → Except String (List (String × Value))
  | Value.map m => Except.ok m
  | _ => Except.error "expected object value"

/-- Modelled from the spec: `vrl::Value::try_bytes` (and
`try_bytes_utf8_lossy`, whose lossy utf-8 step is the identity on the
string model). -/
def Value.tryBytes : Value → Except String String
  | Value.bytes s => Except.ok s
  | _ => Except.error "expected bytes value"

/-- Modelled from the spec: `vrl::Value::try_timestamp`. -/
def Value.tryTimestamp : Value → Except String Nat
  | Value.timestamp t => Except.ok t
  | _ => Except.error "expected timestamp value"

/-- `VALID_METRIC_PATHS_SET` (vrl_target.rs line 7 / metric.rs line 6). -/
def validMetricPathsSet : String := ".name, .namespace, .timestamp, .kind, .tags"

/-- `VALID_METRIC_PATHS_GET` (vrl_target.rs line 10 / metric.rs line 9). -/
def validMetricPathsGet : String :=
  ".name, .namespace, .timestamp, .kind, .tags, .type"

/-- `MetricPathError::InvalidPath` display string. -/
def invalidPathMsg (printed expected : String) : String :=
  "invalid path " ++ printed ++ ": expected one of " ++ expected

/-- `MetricPathError::SetPathError` display string. -/
def setPathErrorMsg : String := "cannot set root path"

/-- Modelled from the spec: display of a module-implementation path
(`LookupBuf`): dot-joined segments, as pinned by the in-repository test
(`"invalid path zork"`). -/
def lookupBufToString (p : List String) : String := String.intercalate "." p

/-- Modelled from the spec: display of a flat-implementation path
(`vrl::Path`): leading dot, as pinned by the in-repository test
(`"invalid path .zork"`). -/
def vrlPathToString (p : List String) : String :=
  "." ++ String.intercalate "." p

/-- Modelled from the spec: `LookupBuf::to_alternative_components(max)`.
Without coalesced segments in the path model there is exactly one
alternative: the segment names truncated to `max`. -/
def toAlternativeComponents (max : Nat) (p : List String) :
    List (List String) := [p.take max]

/-- `MAX_METRIC_PATH_DEPTH` (metric.rs line 14). -/
def maxMetricPathDepth : Nat := 3

/-- The tag map rendered as an object value (`get`/`remove` of `.tags`). -/
def tagsToValue (t : List (String × String)) : Value :=
  Value.map (t.map (fun kv => (kv.1, Value.bytes kv.2)))

/-- The `.tags` whole-object insert loop (vrl_target.rs lines 60-69 /
metric.rs lines 42-50): upsert each entry whose value coerces to bytes,
stopping (with the tags set so far retained) at the first value that does
not. -/
def setTagsFromObject (M : Metric) :
    List (String × Value) → Except String Unit × Metric
  | [] => (Except.ok (), M)
  | (k, v) :: rest =>
    match Value.tryBytes v with
    | Except.ok s => setTagsFromObject (M.setTagValue k s) rest
    | Except.error e => (Except.error e, M)

/-- The shared non-root `insert` arms of the two metric adapters
(vrl_target.rs lines 58-105 and metric.rs lines 38-95; the arm bodies are
textually identical in the two files, which differ only in how the path is
turned into components and printed). -/
def metricInsertArms (M : Metric) (printed : String) (comps : List String)
    (v : Value) : Except String Unit × Metric :=
  match comps with
  | [t] =>
    if t = "tags" then
      match Value.tryObject v with
      | Except.ok entries => setTagsFromObject M entries
      | Except.error e => (Except.error e, M)
    else if t = "name" then
      match Value.tryBytes v with
      | Except.ok s => (Except.ok (), { M with name := s })
      | Except.error e => (Except.error e, M)
    else if t = "namespace" then
      match Value.tryBytes v with
      | Except.ok s => (Except.ok (), { M with nameSpace := some s })
      | Except.error e => (Except.error e, M)
    else if t = "timestamp" then
      match Value.tryTimestamp v with
      | Except.ok ts => (Except.ok (), { M with timestamp := some ts })
      | Except.error e => (Except.error e, M)
    else if t = "kind" then
      match MetricKind.tryFrom v with
      | Except.ok kd => (Except.ok (), { M with kind := kd })
      | Except.error e => (Except.error e, M)
    else (Except.error (invalidPathMsg printed validMetricPathsSet), M)
  | [t, f] =>
    if t = "tags" then
      match Value.tryBytes v with
      | Except.ok s => (Except.ok (), M.setTagValue f s)
      | Except.error e => (Except.error e, M)
    else (Except.error (invalidPathMsg printed validMetricPathsSet), M)
  | _ => (Except.error (invalidPathMsg printed validMetricPathsSet), M)

/-- The root map returned by `get(.)` on a metric (vrl_target.rs lines
114-136 / metric.rs lines 103-125): mandatory name/kind/type entries,
optional namespace/timestamp/tags entries. -/
def Metric.rootMap (M : Metric) : List (String × Value) :=
  let m0 := mapInsert ([] : List (String × Value)) "name" (Value.bytes M.name)
  let m1 := match M.nameSpace with
    | some ns => mapInsert m0 "namespace" (Value.bytes ns)
    | none => m0
  let m2 := match M.timestamp with
    | some t => mapInsert m1 "timestamp" (Value.timestamp t)
    | none => m1
  let m3 := mapInsert m2 "kind" M.kind.toValue
  let m4 := match M.tags with
    | some t => mapInsert m3 "tags" (tagsToValue t)
    | none => m3
  mapInsert m4 "type" M.value.toValue

/-- The shared non-root `get` arms of the two metric adapters
(vrl_target.rs lines 138-168 and metric.rs lines 127-163; in the module
implementation an absent optional field `continue`s out of the single
alternative and yields `Ok(None)`, which coincides with the flat
implementation's direct `Ok(None)`). -/
def metricGetArms (M : Metric) (printed : String) (comps : List String) :
    Except String (Option Value) :=
  match comps with
  | [t] =>
    if t = "name" then Except.ok (some (Value.bytes M.name))
    else if t = "namespace" then Except.ok (M.nameSpace.map Value.bytes)
    else if t = "timestamp" then Except.ok (M.timestamp.map Value.timestamp)
    else if t = "kind" then Except.ok (some M.kind.toValue)
    else if t = "tags" then Except.ok (M.tags.map tagsToValue)
    else if t = "type" then Except.ok (some M.value.toValue)
    else Except.error (invalidPathMsg printed validMetricPathsGet)
  | [t, f] =>
    if t = "tags" then Except.ok ((M.tagValue f).map Value.bytes)
    else Except.error (invalidPathMsg printed validMetricPathsGet)
  | _ => Except.error (invalidPathMsg printed validMetricPathsGet)

/-- The shared non-root `remove` arms of the two metric adapters
(vrl_target.rs lines 185-206 and metric.rs lines 175-195). -/
def metricRemoveArms (M : Metric) (printed : String) (comps : List String) :
    Except String (Option Value) × Metric :=
  match comps with
  | [t] =>
    if t = "namespace" then
      (Except.ok (M.nameSpace.map Value.bytes), { M with nameSpace := none })
    else if t = "timestamp" then
      (Except.ok (M.timestamp.map Value.timestamp),
        { M with timestamp := none })
    else if t = "tags" then
      (Except.ok (M.tags.map tagsToValue), { M with tags := none })
    else (Except.error (invalidPathMsg printed validMetricPathsSet), M)
  | [t, f] =>
    if t = "tags" then
      ((M.deleteTag f).1.map Value.bytes |> Except.ok, (M.deleteTag f).2)
    else (Except.error (invalidPathMsg printed validMetricPathsSet), M)
  | _ => (Except.error (invalidPathMsg printed validMetricPathsSet), M)

/-- Module metric adapter `Target::insert`
(src/src/event/vrl_target/metric.rs lines 31-98). -/
def metricTargetInsert (M : Metric) (p : List String) (v : Value) :
    Except String Unit × Metric :=
  if p = [] then (Except.error setPathErrorMsg, M)
  else
    match (toAlternativeComponents maxMetricPathDepth p).head? with
    | some comps => metricInsertArms M (lookupBufToString p) comps v
    | none => (Except.error (invalidPathMsg (lookupBufToString p)
        validMetricPathsSet), M)

/-- Module metric adapter `Target::get`
(src/src/event/vrl_target/metric.rs lines 100-166). -/
def metricTargetGet (M : Metric) (p : List String) :
    Except String (Option Value) :=
  if p = [] then Except.ok (some (Value.map M.rootMap))
  else
    match (toAlternativeComponents maxMetricPathDepth p).head? with
    | some comps => metricGetArms M (lookupBufToString p) comps
    | none => Except.ok none

/-- Module metric adapter `Target::remove`
(src/src/event/vrl_target/metric.rs lines 168-201); the compaction flag is
unused there. -/
def metricTargetRemove (M : Metric) (p : List String) (_compact : Bool) :
    Except String (Option Value) × Metric :=
  if p = [] then (Except.error setPathErrorMsg, M)
  else
    match (toAlternativeComponents maxMetricPathDepth p).head? with
    | some comps => metricRemoveArms M (lookupBufToString p) comps
    | none => (Except.ok none, M)

/-- Flat metric adapter `insert` (src/src/event/vrl_target.rs lines 53-106):
matches the raw segment list, no truncation. -/
def flatMetricInsert (M : Metric) (p : List String) (v : Value) :
    Except String Unit × Metric :=
  if p = [] then (Except.error setPathErrorMsg, M)
  else metricInsertArms M (vrlPathToString p) p v

/-- Flat metric adapter `get` (src/src/event/vrl_target.rs lines 113-169). -/
def flatMetricGet (M : Metric) (p : List String) :
    Except String (Option Value) :=
  if p = [] then Except.ok (some (Value.map M.rootMap))
  else metricGetArms M (vrlPathToString p) p

/-- Flat metric adapter `remove` (src/src/event/vrl_target.rs lines
173-209). -/
def flatMetricRemove (M : Metric) (p : List String) (_compact : Bool) :
    Except String (Option Value) × Metric :=
  if p = [] then (Except.error setPathErrorMsg, M)
  else metricRemoveArms M (vrlPathToString p) p

/-! ## Event, the log target adapters and the two VrlTarget dispatchers -/

/-- `Event` (§3): the sum of the two record kinds. -/
inductive Event where
  | log (e : LogEvent)
  | metric (m : Metric)
  deriving DecidableEq, Repr

/-- Modelled from the spec: the expression-language value target
(`impl vrl::Target for vrl::Value`, not under the provided sources):
root insertion replaces the whole value (§4.5's fan-out mechanism relies on
assigning an array to the root of the flat log target); non-root insertion
walks/auto-vivifies Map segments (§4.3). -/
def valueTargetInsert (v : Value) (p : List String) (newV : Value) :
    Except String Unit × Value :=
  match p with
  | [] => (Except.ok (), newV)
  | _ :: _ =>
    match v with
    | Value.map m => (Except.ok (), Value.map (logInsertPath m p newV))
    | _ => (Except.ok (), Value.map (logInsertPath [] p newV))

/-- Modelled from the spec: `get` of the expression-language value target
(§4.3): root returns the whole value, non-root walks Map segments. -/
def valueTargetGet (v : Value) (p : List String) :
    Except String (Option Value) :=
  match p with
  | [] => Except.ok (some v)
  | _ :: _ =>
    match v with
    | Value.map m => Except.ok (logGetPath m p)
    | _ => Except.ok none

/-- Modelled from the spec: `remove` of the expression-language value target
(§4.3: root removal empties the value and returns the prior one; non-root
removal follows §4.1). -/
def valueTargetRemove (v : Value) (p : List String) (compact : Bool) :
    Except String (Option Value) × Value :=
  match p with
  | [] => (Except.ok (some v), Value.null)
  | _ :: _ =>
    match v with
    | Value.map m =>
      (Except.ok (logRemove m p compact).1, Value.map (logRemove m p compact).2)
    | _ => (Except.ok none, v)

/-- The module log adapter's state (src/src/event/vrl_target/log.rs lines
5-10). -/
inductive LogTarget where
  | event (e : LogEvent)
  | events (es : List LogEvent)
  | value (v : Value) (md : EventMetadata)
  deriving DecidableEq, Repr

/-- Module log adapter `Target::insert` (src/src/event/vrl_target/log.rs
lines 13-33): on the `Event` variant a root insert requires a Map (and
rebuilds the record, with default metadata, through `LogEvent::from`),
a non-root insert goes through `insert_path`; the `Events` variant is a
to-do no-op in the source.  The outer `Option` models the map-invariant
panic. -/
def logTargetInsert :
    LogTarget → List String → Value → Option (Except String Unit × LogTarget)
  | LogTarget.value v md, p, newV =>
    some ((valueTargetInsert v p newV).1,
      LogTarget.value (valueTargetInsert v p newV).2 md)
  | LogTarget.event e, [], newV =>
    some (match newV with
      | Value.map m => (Except.ok (), LogTarget.event (LogEvent.fromMap m))
      | _ => (Except.error "Cannot insert as root of Event unless it is a map.",
          LogTarget.event e))
  | LogTarget.event e, k :: rest, newV =>
    (e.as_map).map (fun m => (Except.ok (),
      LogTarget.event { e with fields := Value.map (logInsertPath m (k :: rest) newV) }))
  | LogTarget.events es, _, _ => some (Except.ok (), LogTarget.events es)

/-- Module log adapter `Target::get` (src/src/event/vrl_target/log.rs lines
35-49). -/
def logTargetGet : LogTarget → List String → Option (Except String (Option Value))
  | LogTarget.value v _, p => some (valueTargetGet v p)
  | LogTarget.event e, [] =>
    (e.as_map).map (fun m => Except.ok (some (Value.map m)))
  | LogTarget.event e, k :: rest =>
    (e.as_map).map (fun m => Except.ok (logGetPath m (k :: rest)))
  | LogTarget.events _, _ => some (Except.ok none)

/-- Module log adapter `Target::remove` (src/src/event/vrl_target/log.rs
lines 51-73): root removal swaps in an empty map and returns the prior
fields; non-root removal goes through `LogEvent::remove` (whose pruning flag
is `false`; the adapter's own compaction flag is a to-do in the source). -/
def logTargetRemove :
    LogTarget → List String → Bool →
      Option (Except String (Option Value) × LogTarget)
  | LogTarget.value v md, p, c =>
    some ((valueTargetRemove v p c).1,
      LogTarget.value (valueTargetRemove v p c).2 md)
  | LogTarget.event e, [], _ =>
    (e.as_map).map (fun m =>
      (Except.ok (some (Value.map m)),
        LogTarget.event { e with fields := Value.map [] }))
  | LogTarget.event e, k :: rest, _ =>
    (e.as_map).map (fun m =>
      (Except.ok (logRemove m (k :: rest) false).1,
        LogTarget.event { e with fields := Value.map (logRemove m (k :: rest) false).2 }))
  | LogTarget.events es, _, _ => some (Except.ok none, LogTarget.events es)

/-- The module dispatcher (src/src/event/vrl_target/mod.rs lines 12-16);
the single-constructor `MetricTarget::Event` wrapper is flattened into the
`metric` constructor. -/
inductive VrlTargetMod where
  | log (t : LogTarget)
  | metric (m : Metric)
  deriving DecidableEq, Repr

/-- `VrlTarget::new` of the module implementation (mod.rs lines 19-24). -/
def VrlTargetMod.new : Event → VrlTargetMod
  | Event.log e => VrlTargetMod.log (LogTarget.event e)
  | Event.metric m => VrlTargetMod.metric m

/-- Module dispatcher `insert` (mod.rs lines 50-55). -/
def vrlTargetModInsert (t : VrlTargetMod) (p : List String) (v : Value) :
    Option (Except String Unit × VrlTargetMod) :=
  match t with
  | VrlTargetMod.log lt =>
    (logTargetInsert lt p v).map (fun r => (r.1, VrlTargetMod.log r.2))
  | VrlTargetMod.metric M =>
    some ((metricTargetInsert M p v).1,
      VrlTargetMod.metric (metricTargetInsert M p v).2)

/-- Module dispatcher `get` (mod.rs lines 57-62). -/
def vrlTargetModGet (t : VrlTargetMod) (p : List String) :
    Option (Except String (Option Value)) :=
  match t with
  | VrlTargetMod.log lt => logTargetGet lt p
  | VrlTargetMod.metric M => some (metricTargetGet M p)

/-- Module dispatcher `remove` (mod.rs lines 64-68). -/
def vrlTargetModRemove (t : VrlTargetMod) (p : List String) (c : Bool) :
    Option (Except String (Option Value) × VrlTargetMod) :=
  match t with
  | VrlTargetMod.log lt =>
    (logTargetRemove lt p c).map (fun r => (r.1, VrlTargetMod.log r.2))
  | VrlTargetMod.metric M =>
    some ((metricTargetRemove M p c).1,
      VrlTargetMod.metric (metricTargetRemove M p c).2)

/-- Inserting a list of entries one by one (the `log.extend(object)` step of
`value_into_events`); on the map-rooted records built there the insert chain
never panics, so this is the pure field-map fold. -/
def extendEntries (m : List (String × Value)) (kvs : List (String × Value)) :
    List (String × Value) :=
  kvs.foldl (fun acc kv => mapInsert acc kv.1 kv.2) m

/-- `value_into_events` (src/src/event/vrl_target.rs lines 218-236 and the
textually identical src/src/event/vrl_target/mod.rs lines 78-96): an Array
fans out into one event per element under the configured message key, each
with a duplicate of the metadata; a Map becomes the single event's fields;
any other value becomes the message field of a single event. -/
def valueIntoEvents (v : Value) (md : EventMetadata) : List Event :=
  match v with
  | Value.array xs =>
    xs.map (fun x =>
      Event.log { fields := Value.map (mapInsert [] messageKey x),
                  metadata := md })
  | Value.map entries =>
    [Event.log { fields := Value.map (extendEntries [] entries),
                 metadata := md }]
  | x =>
    [Event.log { fields := Value.map (mapInsert [] messageKey x),
                 metadata := md }]

/-- Module dispatcher `into_events` (src/src/event/vrl_target/mod.rs lines
30-47). -/
def vrlTargetModIntoEvents : VrlTargetMod → List Event
  | VrlTargetMod.log (LogTarget.event e) => [Event.log e]
  | VrlTargetMod.log (LogTarget.events es) => es.map Event.log
  | VrlTargetMod.log (LogTarget.value v md) => valueIntoEvents v md
  | VrlTargetMod.metric M => [Event.metric M]

/-- The flat dispatcher (src/src/event/vrl_target.rs lines 13-17): a log
event is held as a raw value plus metadata. -/
inductive VrlTargetFlat where
  | logEvent (v : Value) (md : EventMetadata)
  | metric (m : Metric)
  deriving DecidableEq, Repr

/-- `VrlTarget::new` of the flat implementation (vrl_target.rs lines 20-30);
`none` models the map-invariant panic of `From<LogEvent> for BTreeMap`. -/
def VrlTargetFlat.new : Event → Option VrlTargetFlat
  | Event.log e =>
    (e.as_map).map (fun m => VrlTargetFlat.logEvent (Value.map m) e.metadata)
  | Event.metric M => some (VrlTargetFlat.metric M)

/-- Flat dispatcher `insert` (vrl_target.rs lines 50-108). -/
def vrlTargetFlatInsert (t : VrlTargetFlat) (p : List String) (v : Value) :
    Except String Unit × VrlTargetFlat :=
  match t with
  | VrlTargetFlat.logEvent lv md =>
    ((valueTargetInsert lv p v).1,
      VrlTargetFlat.logEvent (valueTargetInsert lv p v).2 md)
  | VrlTargetFlat.metric M =>
    ((flatMetricInsert M p v).1, VrlTargetFlat.metric (flatMetricInsert M p v).2)

/-- Flat dispatcher `get` (vrl_target.rs lines 110-171). -/
def vrlTargetFlatGet (t : VrlTargetFlat) (p : List String) :
    Except String (Option Value) :=
  match t with
  | VrlTargetFlat.logEvent lv _ => valueTargetGet lv p
  | VrlTargetFlat.metric M => flatMetricGet M p

/-- Flat dispatcher `remove` (vrl_target.rs lines 173-209). -/
def vrlTargetFlatRemove (t : VrlTargetFlat) (p : List String) (c : Bool) :
    Except String (Option Value) × VrlTargetFlat :=
  match t with
  | VrlTargetFlat.logEvent lv md =>
    ((valueTargetRemove lv p c).1,
      VrlTargetFlat.logEvent (valueTargetRemove lv p c).2 md)
  | VrlTargetFlat.metric M =>
    ((flatMetricRemove M p c).1, VrlTargetFlat.metric (flatMetricRemove M p c).2)

/-- Flat dispatcher `into_events` (vrl_target.rs lines 36-46). -/
def vrlTargetFlatIntoEvents : VrlTargetFlat → List Event
  | VrlTargetFlat.logEvent v md => valueIntoEvents v md
  | VrlTargetFlat.metric M => [Event.metric M]

/-! ## Claim theorems -/

/-- Whether a `Value` is the Bytes variant. -/
def Value.isBytes : Value → Bool
  | Value.bytes _ => true
  | _ => false

/-- Claim C7: decoding any JSON object into a LogEvent succeeds and
re-encoding yields exactly the original object, for arbitrary nested
Map/Array/scalar contents; every non-object JSON value is rejected with an
error. -/
theorem C7_json_roundtrip :
    (∀ fs : List (String × Json),
      LogEvent.tryFromJson (Json.obj fs)
          = Except.ok (LogEvent.fromMap (jsonObjToValue fs))
        ∧ LogEvent.tryIntoJson (LogEvent.fromMap (jsonObjToValue fs))
          = Except.ok (Json.obj fs))
    ∧ LogEvent.tryFromJson Json.null
        = Except.error "Attempted to convert non-Object JSON into a LogEvent."
    ∧ (∀ b, LogEvent.tryFromJson (Json.boolean b)
        = Except.error "Attempted to convert non-Object JSON into a LogEvent.")
    ∧ (∀ n, LogEvent.tryFromJson (Json.num n)
        = Except.error "Attempted to convert non-Object JSON into a LogEvent.")
    ∧ (∀ s, LogEvent.tryFromJson (Json.str s)
        = Except.error "Attempted to convert non-Object JSON into a LogEvent.")
    ∧ (∀ xs, LogEvent.tryFromJson (Json.arr xs)
        = Except.error "Attempted to convert non-Object JSON into a LogEvent.") := by
  refine ⟨fun fs => ⟨rfl, ?_⟩, rfl, fun _ => rfl, fun _ => rfl, fun _ => rfl,
    fun _ => rfl⟩
  simp [LogEvent.tryIntoJson, LogEvent.fromMap, valueToJson,
    valueObjToJson_jsonObjToValue]

/-- Claim C5: `LogEvent::merge` merges exactly the whitelisted fields that
are present in the incoming record (byte/string values concatenate
current-then-incoming, any other combination takes the incoming value,
fields absent in the current record take the incoming value), discards
non-whitelisted incoming fields, leaves non-whitelisted current fields
unchanged, and merges the metadata unconditionally. -/
theorem C5_merge_fields (c i : List (String × Value))
    (md1 md2 : EventMetadata) (fs : List String) :
    LogEvent.merge { fields := Value.map c, metadata := md1 }
        { fields := Value.map i, metadata := md2 } fs
      = some { fields := Value.map (mergeFields c i fs).1,
               metadata := md1.merge md2 }
    ∧ (∀ f, mapGet (mergeFields c i fs).1 f =
        if f ∈ fs then
          match mapGet i f with
          | some v => some (mergeInto (mapGet c f) v)
          | none => mapGet c f
        else mapGet c f)
    ∧ (∀ a b, Value.mergeVal (Value.bytes a) (Value.bytes b)
        = Value.bytes (a ++ b))
    ∧ (∀ v w : Value, v.isBytes = false ∨ w.isBytes = false →
        Value.mergeVal v w = w) := by
  refine ⟨rfl, mapGet_mergeFields fs c i, fun a b => rfl, ?_⟩
  intro v w h
  cases v <;> cases w
  all_goals simp [Value.mergeVal]
  rcases h with h | h <;> simp [Value.isBytes] at h

/-- Witness for C5 at the concrete inputs of the specification's scalar
merge law and field-selective merge test. -/
theorem C5_merge_fields_witness :
    mapGet (mergeFields
        [("do_not_merge", Value.bytes "my_first_value"),
         ("merge", Value.bytes "hello ")]
        [("do_not_merge", Value.bytes "my_second_value"),
         ("merge", Value.bytes "world")]
        ["merge"]).1 "merge" = some (Value.bytes "hello world")
    ∧ Value.mergeVal (Value.boolean true) (Value.bytes "my_val")
      = Value.bytes "my_val" := by
  have h := C5_merge_fields
    [("do_not_merge", Value.bytes "my_first_value"),
     ("merge", Value.bytes "hello ")]
    [("do_not_merge", Value.bytes "my_second_value"),
     ("merge", Value.bytes "world")]
    EventMetadata.default EventMetadata.default ["merge"]
  constructor
  · rw [h.2.1 "merge"]
    decide
  · exact h.2.2.2 (Value.boolean true) (Value.bytes "my_val")
      (Or.inl (by decide))

/-- Claim C4: on the module log adapter, a root insert succeeds exactly when
the value is a Map — in which case the entire field set is replaced by the
map's entries — and otherwise fails with the type error, leaving the record
unchanged. -/
theorem C4_log_root_insert (m : List (String × Value)) (md : EventMetadata)
    (v : Value) :
    (∀ m2, v = Value.map m2 →
      logTargetInsert (LogTarget.event { fields := Value.map m, metadata := md })
          [] v
        = some (Except.ok (), LogTarget.event (LogEvent.fromMap m2)))
    ∧ (v.isMap = false →
      logTargetInsert (LogTarget.event { fields := Value.map m, metadata := md })
          [] v
        = some (Except.error "Cannot insert as root of Event unless it is a map.",
            LogTarget.event { fields := Value.map m, metadata := md })) := by
  constructor
  · rintro m2 rfl
    rfl
  · intro h
    cases v <;> first | rfl | simp [Value.isMap] at h

/-- Witness for C4: a map value replaces the fields, an integer value is
rejected. -/
theorem C4_log_root_insert_witness :
    logTargetInsert
        (LogTarget.event { fields := Value.map [("a", Value.null)],
                           metadata := EventMetadata.default })
        [] (Value.map [("b", Value.boolean true)])
      = some (Except.ok (),
          LogTarget.event (LogEvent.fromMap [("b", Value.boolean true)]))
    ∧ logTargetInsert
        (LogTarget.event { fields := Value.map [("a", Value.null)],
                           metadata := EventMetadata.default })
        [] (Value.integer 3)
      = some (Except.error "Cannot insert as root of Event unless it is a map.",
          LogTarget.event { fields := Value.map [("a", Value.null)],
                            metadata := EventMetadata.default }) :=
  ⟨(C4_log_root_insert [("a", Value.null)] EventMetadata.default
      (Value.map [("b", Value.boolean true)])).1 _ rfl,
   (C4_log_root_insert [("a", Value.null)] EventMetadata.default
      (Value.integer 3)).2 rfl⟩

/-- Claim C9: root `get` on a metric target succeeds (it is never an
InvalidPath error) with a map that always contains `name`, `kind` and
`type`, and contains `namespace`, `timestamp` and `tags` exactly when the
corresponding optional field is set.  (`get` borrows the metric immutably,
so the metric itself cannot change.) -/
theorem C9_metric_root_get (M : Metric) :
    metricTargetGet M [] = Except.ok (some (Value.map M.rootMap))
    ∧ mapContains M.rootMap "name" = true
    ∧ mapContains M.rootMap "kind" = true
    ∧ mapContains M.rootMap "type" = true
    ∧ mapContains M.rootMap "namespace" = M.nameSpace.isSome
    ∧ mapContains M.rootMap "timestamp" = M.timestamp.isSome
    ∧ mapContains M.rootMap "tags" = M.tags.isSome := by
  obtain ⟨nm, ns, ts, kd, tg, vl⟩ := M
  refine ⟨rfl, ?_, ?_, ?_, ?_, ?_, ?_⟩ <;>
    cases ns <;> cases ts <;> cases tg <;>
      simp [Metric.rootMap, mapContains, mapGet_mapInsert]

/-- Claim C2: on the flat implementation, inserting an `n`-element array at
the root of a log target succeeds, and `into_events` then yields exactly
`n` events, the `i`-th being a log record whose configured message field
holds the `i`-th array element and whose metadata duplicates the
original's; a metric target's `into_events` (in either implementation)
always yields exactly one event. -/
theorem C2_root_array_fanout (v : Value) (md : EventMetadata)
    (xs : List Value) :
    vrlTargetFlatInsert (VrlTargetFlat.logEvent v md) [] (Value.array xs)
      = (Except.ok (), VrlTargetFlat.logEvent (Value.array xs) md)
    ∧ vrlTargetFlatIntoEvents (VrlTargetFlat.logEvent (Value.array xs) md)
      = xs.map (fun x =>
          Event.log { fields := Value.map [(messageKey, x)], metadata := md })
    ∧ (vrlTargetFlatIntoEvents
        (VrlTargetFlat.logEvent (Value.array xs) md)).length = xs.length
    ∧ (∀ i x, xs.get? i = some x →
        (vrlTargetFlatIntoEvents
            (VrlTargetFlat.logEvent (Value.array xs) md)).get? i
          = some (Event.log
              { fields := Value.map [(messageKey, x)], metadata := md }))
    ∧ (∀ M, vrlTargetFlatIntoEvents (VrlTargetFlat.metric M)
        = [Event.metric M])
    ∧ (∀ M, vrlTargetModIntoEvents (VrlTargetMod.metric M)
        = [Event.metric M]) := by
  refine ⟨rfl, rfl, ?_, ?_, fun M => rfl, fun M => rfl⟩
  · simp [vrlTargetFlatIntoEvents, valueIntoEvents]
  · intro i x hx
    rw [List.get?_eq_getElem?] at hx
    simp [vrlTargetFlatIntoEvents, valueIntoEvents, List.getElem?_map, hx,
      mapInsert]

/-- Witness for C2: a three-element array fans out into three events and
the middle one carries the middle element under the message key. -/
theorem C2_root_array_fanout_witness :
    (vrlTargetFlatIntoEvents
        (VrlTargetFlat.logEvent
          (Value.array [Value.null, Value.boolean true, Value.integer 3])
          ⟨[5]⟩)).length = 3
    ∧ (vrlTargetFlatIntoEvents
        (VrlTargetFlat.logEvent
          (Value.array [Value.null, Value.boolean true, Value.integer 3])
          ⟨[5]⟩)).get? 1
      = some (Event.log
          { fields := Value.map [(messageKey, Value.boolean true)],
            metadata := ⟨[5]⟩ }) := by
  have h := C2_root_array_fanout Value.null ⟨[5]⟩
    [Value.null, Value.boolean true, Value.integer 3]
  exact ⟨h.2.2.1, h.2.2.2.1 1 (Value.boolean true) rfl⟩

/-- The non-root paths accepted by the metric adapters' `remove`. -/
def metricRemoveAccepted (p : List String) : Prop :=
  p = ["namespace"] ∨ p = ["timestamp"] ∨ p = ["tags"] ∨ ∃ f, p = ["tags", f]

/-- Claim C6: removing the same accepted non-root path twice reports
nothing found on the second removal, with no error — on the module metric
adapter for every accepted path, and on the module log adapter for every
non-root field path. -/
theorem C6_remove_idempotent (M : Metric) (p : List String) (c c' : Bool)
    (m : List (String × Value)) (md : EventMetadata) :
    (metricRemoveAccepted p →
      (metricTargetRemove (metricTargetRemove M p c).2 p c').1
        = Except.ok none)
    ∧ (p ≠ [] →
      ((logTargetRemove
          (LogTarget.event { fields := Value.map m, metadata := md }) p c).bind
        (fun r1 => (logTargetRemove r1.2 p c').map (fun r2 => r2.1)))
        = some (Except.ok none)) := by
  constructor
  · rintro (rfl | rfl | rfl | ⟨f, rfl⟩)
    · simp [metricTargetRemove, toAlternativeComponents, metricRemoveArms,
        maxMetricPathDepth, lookupBufToString]
    · simp [metricTargetRemove, toAlternativeComponents, metricRemoveArms,
        maxMetricPathDepth, lookupBufToString]
    · simp [metricTargetRemove, toAlternativeComponents, metricRemoveArms,
        maxMetricPathDepth, lookupBufToString]
    · cases ht : M.tags with
      | none =>
        simp [metricTargetRemove, toAlternativeComponents, metricRemoveArms,
          maxMetricPathDepth, Metric.deleteTag, ht]
      | some t =>
        simp [metricTargetRemove, toAlternativeComponents, metricRemoveArms,
          maxMetricPathDepth, Metric.deleteTag, ht, mapGet_mapErase]
  · intro hp
    cases p with
    | nil => exact absurd rfl hp
    | cons k rest =>
      simp [logTargetRemove, LogEvent.as_map, Option.bind,
        logRemove_twice (k :: rest) (by simp) m false]

/-- Witness for C6 at concrete inputs: a metric tag and a log field are
each removed twice. -/
theorem C6_remove_idempotent_witness :
    (metricTargetRemove
        (metricTargetRemove
          { name := "n", nameSpace := none, timestamp := none,
            kind := MetricKind.absolute, tags := some [("host", "h1")],
            value := MetricValue.counter }
          ["tags", "host"] true).2
        ["tags", "host"] true).1 = Except.ok none
    ∧ ((logTargetRemove
          (LogTarget.event { fields := Value.map [("a", Value.null)],
                             metadata := EventMetadata.default })
          ["a"] true).bind
        (fun r1 => (logTargetRemove r1.2 ["a"] false).map (fun r2 => r2.1)))
        = some (Except.ok none) := by
  have h := C6_remove_idempotent
    { name := "n", nameSpace := none, timestamp := none,
      kind := MetricKind.absolute, tags := some [("host", "h1")],
      value := MetricValue.counter }
    ["tags", "host"] true true [("a", Value.null)] EventMetadata.default
  have h2 := C6_remove_idempotent
    { name := "n", nameSpace := none, timestamp := none,
      kind := MetricKind.absolute, tags := some [("host", "h1")],
      value := MetricValue.counter }
    ["a"] true false [("a", Value.null)] EventMetadata.default
  exact ⟨h.1 (Or.inr (Or.inr (Or.inr ⟨"host", rfl⟩))), h2.2 (by simp)⟩

/-- `LogEvent::insert_path` (src/src/event/log_event.rs lines 83-89), via
the path-walking helper; the replaced-value return of the source is not read
by any claim and is not modelled.  The outer `Option` models the
map-invariant panic. -/
def LogEvent.insert_path (e : LogEvent) (p : List String) (v : Value) :
    Option LogEvent :=
  (e.as_map).map (fun m => { e with fields := Value.map (logInsertPath m p v) })

/-- Whether an optional log event, the result of a fallible operation, was
produced and is map-rooted. -/
def keepsMapEvent : Option LogEvent → Bool
  | some e => e.fields.isMap
  | none => false

/-- Same for operations that also return a previous value. -/
def keepsMapEventPair : Option (Option Value × LogEvent) → Bool
  | some r => r.2.fields.isMap
  | none => false

/-- Same for the module log adapter's `insert`: the resulting target must
still wrap a map-rooted event. -/
def keepsMapTarget : Option (Except String Unit × LogTarget) → Bool
  | some (_, LogTarget.event e) => e.fields.isMap
  | _ => false

/-- Same for the module log adapter's `remove`. -/
def keepsMapTargetRemove :
    Option (Except String (Option Value) × LogTarget) → Bool
  | some (_, LogTarget.event e) => e.fields.isMap
  | _ => false

theorem extend_on_map (kvs : List (String × Value)) :
    ∀ (m : List (String × Value)) (md : EventMetadata),
      LogEvent.extend { fields := Value.map m, metadata := md } kvs
        = some { fields := Value.map (extendEntries m kvs), metadata := md } := by
  induction kvs with
  | nil => intro m md; rfl
  | cons kv rest ih =>
    intro m md
    obtain ⟨k, v⟩ := kv
    simp [LogEvent.extend, LogEvent.insert, LogEvent.as_map, Option.bind,
      ih (mapInsert m k v) md, extendEntries]

/-- Claim C1: every public constructor of `LogEvent` produces a map-rooted
record and every public operation (including the module log adapter's
`insert`/`remove`) keeps it map-rooted, so the `unreachable!()` branches of
`as_map`, `as_map_mut`, `keys` and `into_parts` are never reached from this
surface. -/
theorem C1_map_invariant :
    (LogEvent.default).fields.isMap = true
    ∧ (∀ md, (LogEvent.new_with_metadata md).fields.isMap = true)
    ∧ (∀ m, (LogEvent.fromMap m).fields.isMap = true)
    ∧ (∀ s now, keepsMapEvent (LogEvent.fromBytes s now) = true)
    ∧ (∀ s now, keepsMapEvent (LogEvent.fromString s now) = true)
    ∧ (∀ kvs, keepsMapEvent (LogEvent.fromIter kvs) = true)
    ∧ (∀ fs, (match LogEvent.tryFromJson (Json.obj fs) with
        | Except.ok e => e.fields.isMap
        | Except.error _ => false) = true)
    ∧ (∀ m md k v, keepsMapEventPair
        (LogEvent.insert { fields := Value.map m, metadata := md } k v) = true)
    ∧ (∀ m md k v, keepsMapEvent
        (LogEvent.insert_flat { fields := Value.map m, metadata := md } k v)
          = true)
    ∧ (∀ m md p v, keepsMapEvent
        (LogEvent.insert_path { fields := Value.map m, metadata := md } p v)
          = true)
    ∧ (∀ m md k v, keepsMapEvent
        (LogEvent.try_insert { fields := Value.map m, metadata := md } k v)
          = true)
    ∧ (∀ m md k, keepsMapEventPair
        (LogEvent.remove { fields := Value.map m, metadata := md } k) = true)
    ∧ (∀ m md k pr, keepsMapEventPair
        (LogEvent.remove_prune { fields := Value.map m, metadata := md } k pr)
          = true)
    ∧ (∀ c i md1 md2 fs, keepsMapEvent
        (LogEvent.merge { fields := Value.map c, metadata := md1 }
          { fields := Value.map i, metadata := md2 } fs) = true)
    ∧ (∀ m md kvs, keepsMapEvent
        (LogEvent.extend { fields := Value.map m, metadata := md } kvs) = true)
    ∧ (∀ m md p v, keepsMapTarget
        (logTargetInsert
          (LogTarget.event { fields := Value.map m, metadata := md }) p v)
          = true)
    ∧ (∀ m md p cf, keepsMapTargetRemove
        (logTargetRemove
          (LogTarget.event { fields := Value.map m, metadata := md }) p cf)
          = true) := by
  refine ⟨rfl, fun md => rfl, fun m => rfl, ?_, ?_, ?_, fun fs => rfl,
    fun m md k v => rfl, fun m md k v => rfl, fun m md p v => rfl, ?_,
    fun m md k => rfl, fun m md k pr => rfl, fun c i md1 md2 fs => rfl, ?_,
    ?_, ?_⟩
  · intro s now
    simp [LogEvent.fromBytes, LogEvent.insert, LogEvent.as_map,
      LogEvent.default, Option.bind, keepsMapEvent, Value.isMap]
  · intro s now
    simp [LogEvent.fromString, LogEvent.fromBytes, LogEvent.insert,
      LogEvent.as_map, LogEvent.default, Option.bind, keepsMapEvent,
      Value.isMap]
  · intro kvs
    simp [LogEvent.fromIter, LogEvent.default, extend_on_map kvs,
      keepsMapEvent, Value.isMap]
  · intro m md k v
    by_cases h : mapContains m k = true <;>
      simp [LogEvent.try_insert, LogEvent.as_map, keepsMapEvent, Value.isMap, h]
  · intro m md kvs
    simp [extend_on_map kvs, keepsMapEvent, Value.isMap]
  · intro m md p v
    cases p with
    | nil =>
      cases v <;>
        simp [logTargetInsert, keepsMapTarget, LogEvent.fromMap, Value.isMap]
    | cons k rest =>
      simp [logTargetInsert, LogEvent.as_map, keepsMapTarget, Value.isMap]
  · intro m md p cf
    cases p with
    | nil =>
      simp [logTargetRemove, LogEvent.as_map, keepsMapTargetRemove, Value.isMap]
    | cons k rest =>
      simp [logTargetRemove, LogEvent.as_map, keepsMapTargetRemove, Value.isMap]

/-- The fixed set of paths accepted for metric writes/deletes (§4.4): the
five single fields plus single tags. -/
def metricWritePath (p : List String) : Prop :=
  p = ["name"] ∨ p = ["namespace"] ∨ p = ["timestamp"] ∨ p = ["kind"]
    ∨ p = ["tags"] ∨ ∃ f, p = ["tags", f]

/-- The fixed set of paths accepted for metric reads: the write set plus
`type`. -/
def metricReadPath (p : List String) : Prop :=
  metricWritePath p ∨ p = ["type"]

/-- Claim C3: on the module metric adapter, `insert`/`remove` with any
non-root path outside the write set (which by construction excludes any
path of three or more segments) fails with the InvalidPath error that
enumerates the write set, `get` outside the read set fails with the error
enumerating the read set (which additionally contains `type`), `insert`
at `type` always fails, and `insert`/`remove` at the root always fail with
"cannot set root path", leaving the metric unchanged in every error
case stated. -/
theorem C3_metric_path_whitelist (M : Metric) (p : List String) (v : Value)
    (c : Bool) :
    (p ≠ [] → ¬metricWritePath p →
      metricTargetInsert M p v
          = (Except.error (invalidPathMsg (lookupBufToString p)
              validMetricPathsSet), M)
        ∧ metricTargetRemove M p c
          = (Except.error (invalidPathMsg (lookupBufToString p)
              validMetricPathsSet), M))
    ∧ (p ≠ [] → ¬metricReadPath p →
      metricTargetGet M p
        = Except.error (invalidPathMsg (lookupBufToString p)
            validMetricPathsGet))
    ∧ metricTargetInsert M ["type"] v
      = (Except.error (invalidPathMsg (lookupBufToString ["type"])
          validMetricPathsSet), M)
    ∧ metricTargetInsert M [] v = (Except.error setPathErrorMsg, M)
    ∧ metricTargetRemove M [] c = (Except.error setPathErrorMsg, M) := by
  refine ⟨?_, ?_, ?_, rfl, rfl⟩
  · intro hne hw
    cases p with
    | nil => exact absurd rfl hne
    | cons a rest =>
      cases rest with
      | nil =>
        have h1 : a ≠ "name" := fun h => hw (by subst h; exact Or.inl rfl)
        have h2 : a ≠ "namespace" := fun h => hw (by subst h; exact Or.inr (Or.inl rfl))
        have h3 : a ≠ "timestamp" := fun h =>
          hw (by subst h; exact Or.inr (Or.inr (Or.inl rfl)))
        have h4 : a ≠ "kind" := fun h =>
          hw (by subst h; exact Or.inr (Or.inr (Or.inr (Or.inl rfl))))
        have h5 : a ≠ "tags" := fun h =>
          hw (by subst h; exact Or.inr (Or.inr (Or.inr (Or.inr (Or.inl rfl)))))
        constructor <;>
          simp [metricTargetInsert, metricTargetRemove,
            toAlternativeComponents, maxMetricPathDepth, metricInsertArms,
            metricRemoveArms, h1, h2, h3, h4, h5]
      | cons b rest2 =>
        cases rest2 with
        | nil =>
          have h5 : a ≠ "tags" := fun h =>
            hw (by subst h; exact Or.inr (Or.inr (Or.inr (Or.inr (Or.inr ⟨b, rfl⟩)))))
          constructor <;>
            simp [metricTargetInsert, metricTargetRemove,
              toAlternativeComponents, maxMetricPathDepth, metricInsertArms,
              metricRemoveArms, h5]
        | cons c2 rest3 =>
          constructor <;>
            simp [metricTargetInsert, metricTargetRemove,
              toAlternativeComponents, maxMetricPathDepth, metricInsertArms,
              metricRemoveArms]
  · intro hne hr
    cases p with
    | nil => exact absurd rfl hne
    | cons a rest =>
      cases rest with
      | nil =>
        have h1 : a ≠ "name" := fun h =>
          hr (Or.inl (by subst h; exact Or.inl rfl))
        have h2 : a ≠ "namespace" := fun h =>
          hr (Or.inl (by subst h; exact Or.inr (Or.inl rfl)))
        have h3 : a ≠ "timestamp" := fun h =>
          hr (Or.inl (by subst h; exact Or.inr (Or.inr (Or.inl rfl))))
        have h4 : a ≠ "kind" := fun h =>
          hr (Or.inl (by subst h; exact Or.inr (Or.inr (Or.inr (Or.inl rfl)))))
        have h5 : a ≠ "tags" := fun h =>
          hr (Or.inl (by subst h; exact Or.inr (Or.inr (Or.inr (Or.inr (Or.inl rfl))))))
        have h6 : a ≠ "type" := fun h => hr (Or.inr (by subst h; rfl))
        simp [metricTargetGet, toAlternativeComponents, maxMetricPathDepth,
          metricGetArms, h1, h2, h3, h4, h5, h6]
      | cons b rest2 =>
        cases rest2 with
        | nil =>
          have h5 : a ≠ "tags" := fun h =>
            hr (Or.inl (by subst h; exact Or.inr (Or.inr (Or.inr (Or.inr (Or.inr ⟨b, rfl⟩))))))
          simp [metricTargetGet, toAlternativeComponents, maxMetricPathDepth,
            metricGetArms, h5]
        | cons c2 rest3 =>
          simp [metricTargetGet, toAlternativeComponents, maxMetricPathDepth,
            metricGetArms]
  · simp [metricTargetInsert, toAlternativeComponents, maxMetricPathDepth,
      metricInsertArms]

/-- Witness for C3 at the in-repository test's concrete input `zork` (and
`tags.foo.flork`), plus the root and `type` cases. -/
theorem C3_metric_path_whitelist_witness :
    metricTargetInsert
        { name := "name", nameSpace := none, timestamp := none,
          kind := MetricKind.absolute, tags := none,
          value := MetricValue.counter }
        ["zork"] (Value.bytes "thing")
      = (Except.error
          "invalid path zork: expected one of .name, .namespace, .timestamp, .kind, .tags",
        { name := "name", nameSpace := none, timestamp := none,
          kind := MetricKind.absolute, tags := none,
          value := MetricValue.counter })
    ∧ metricTargetGet
        { name := "name", nameSpace := none, timestamp := none,
          kind := MetricKind.absolute, tags := none,
          value := MetricValue.counter }
        ["tags", "foo", "flork"]
      = Except.error
          "invalid path tags.foo.flork: expected one of .name, .namespace, .timestamp, .kind, .tags, .type" := by
  constructor
  · have h := C3_metric_path_whitelist
      { name := "name", nameSpace := none, timestamp := none,
        kind := MetricKind.absolute, tags := none,
        value := MetricValue.counter }
      ["zork"] (Value.bytes "thing") true
    have h2 := (h.1 (by simp) (by
      intro hw
      rcases hw with h' | h' | h' | h' | h' | ⟨f, h'⟩ <;> simp_all)).1
    rw [h2]
    rfl
  · have h := C3_metric_path_whitelist
      { name := "name", nameSpace := none, timestamp := none,
        kind := MetricKind.absolute, tags := none,
        value := MetricValue.counter }
      ["tags", "foo", "flork"] (Value.bytes "thing") true
    have h2 := h.2.1 (by simp) (by
      intro hr
      rcases hr with (h' | h' | h' | h' | h' | ⟨f, h'⟩) | h' <;> simp_all)
    rw [h2]
    rfl

/-- Claim C8, counterexample: the public indexing operator of `LogEvent`
(`Index<T>`, src/src/event/log_event.rs lines 297-307) panics on a missing
key supplied by the caller (`none` models the `expect` panic), even though
the record itself is a perfectly formed map-rooted event whose `get`
returns cleanly — so the panic is not a Map-at-root invariant violation. -/
theorem C8_index_panics_on_missing_key :
    LogEvent.index LogEvent.default "message" = none
    ∧ LogEvent.default.get "message" = some none
    ∧ (LogEvent.default).fields.isMap = true := ⟨rfl, rfl, rfl⟩

/-- Claim C8 as amended: no modelled operation of the core panics on a
map-rooted record — with two exceptions: an internal violation of the
Map-at-root invariant, and the `LogEvent` indexing operator, which panics
exactly when the caller-supplied key is absent.  (The metric adapters'
operations are embedded as total functions into explicit error outcomes:
their source contains no panicking branch at all.) -/
theorem C8_no_panics_amended (m : List (String × Value)) (md : EventMetadata)
    (i : List (String × Value)) (md2 : EventMetadata) (k : String) (v : Value)
    (p : List String) (c : Bool) (kvs : List (String × Value))
    (fs : List String) (pr : Bool) :
    (LogEvent.as_map { fields := Value.map m, metadata := md }).isSome = true
    ∧ (LogEvent.into_parts { fields := Value.map m, metadata := md }).isSome
        = true
    ∧ (LogEvent.get { fields := Value.map m, metadata := md } k).isSome = true
    ∧ (LogEvent.get_flat { fields := Value.map m, metadata := md } k).isSome
        = true
    ∧ (LogEvent.contains { fields := Value.map m, metadata := md } k).isSome
        = true
    ∧ (LogEvent.insert { fields := Value.map m, metadata := md } k v).isSome
        = true
    ∧ (LogEvent.insert_flat { fields := Value.map m, metadata := md } k
        v).isSome = true
    ∧ (LogEvent.insert_path { fields := Value.map m, metadata := md } p
        v).isSome = true
    ∧ (LogEvent.try_insert { fields := Value.map m, metadata := md } k
        v).isSome = true
    ∧ (LogEvent.remove { fields := Value.map m, metadata := md } k).isSome
        = true
    ∧ (LogEvent.remove_prune { fields := Value.map m, metadata := md } k
        pr).isSome = true
    ∧ (LogEvent.extend { fields := Value.map m, metadata := md } kvs).isSome
        = true
    ∧ (LogEvent.merge { fields := Value.map m, metadata := md }
        { fields := Value.map i, metadata := md2 } fs).isSome = true
    ∧ (logTargetInsert
        (LogTarget.event { fields := Value.map m, metadata := md }) p
        v).isSome = true
    ∧ (logTargetGet
        (LogTarget.event { fields := Value.map m, metadata := md }) p).isSome
        = true
    ∧ (logTargetRemove
        (LogTarget.event { fields := Value.map m, metadata := md }) p
        c).isSome = true
    ∧ (VrlTargetFlat.new
        (Event.log { fields := Value.map m, metadata := md })).isSome = true
    ∧ ((LogEvent.index { fields := Value.map m, metadata := md } k).isSome
        ↔ (mapGet m k).isSome) := by
  refine ⟨rfl, rfl, rfl, rfl, rfl, rfl, rfl, rfl, ?_, rfl, rfl, ?_, rfl,
    ?_, ?_, ?_, rfl, ?_⟩
  · by_cases h : mapContains m k = true <;>
      simp [LogEvent.try_insert, LogEvent.as_map, h]
  · simp [extend_on_map kvs]
  · cases p with
    | nil => cases v <;> simp [logTargetInsert]
    | cons a rest => simp [logTargetInsert, LogEvent.as_map]
  · cases p with
    | nil => simp [logTargetGet, LogEvent.as_map]
    | cons a rest => simp [logTargetGet, LogEvent.as_map]
  · cases p with
    | nil => simp [logTargetRemove, LogEvent.as_map]
    | cons a rest => simp [logTargetRemove, LogEvent.as_map]
  · simp [LogEvent.index, LogEvent.get, LogEvent.as_map, Option.bind]

/-- Outcome agreement on fallible results: equal values on success, or an
error in both (the error texts of the two implementations print paths
differently and are not compared). -/
def exceptOutcomeMatches {A : Type} : Except String A → Except String A → Prop
  | Except.ok x, Except.ok y => x = y
  | Except.error _, Except.error _ => True
  | _, _ => False

theorem exceptOutcomeMatches_refl {A : Type} (x : Except String A) :
    exceptOutcomeMatches x x := by
  cases x <;> simp [exceptOutcomeMatches]

theorem metricInsertArms_printed (M : Metric) (comps : List String)
    (v : Value) (pr1 pr2 : String) :
    exceptOutcomeMatches (metricInsertArms M pr1 comps v).1
        (metricInsertArms M pr2 comps v).1
    ∧ (metricInsertArms M pr1 comps v).2 = (metricInsertArms M pr2 comps v).2 := by
  rcases comps with _ | ⟨t, _ | ⟨f, _ | ⟨x, r⟩⟩⟩
  all_goals constructor
  all_goals simp only [metricInsertArms]
  all_goals try split_ifs
  all_goals first
    | exact exceptOutcomeMatches_refl _
    | trivial

theorem metricGetArms_printed (M : Metric) (comps : List String)
    (pr1 pr2 : String) :
    exceptOutcomeMatches (metricGetArms M pr1 comps)
      (metricGetArms M pr2 comps) := by
  rcases comps with _ | ⟨t, _ | ⟨f, _ | ⟨x, r⟩⟩⟩ <;>
    (simp only [metricGetArms]
     (try split_ifs) <;>
       first
         | exact exceptOutcomeMatches_refl _
         | trivial)

theorem metricRemoveArms_printed (M : Metric) (comps : List String)
    (pr1 pr2 : String) :
    exceptOutcomeMatches (metricRemoveArms M pr1 comps).1
        (metricRemoveArms M pr2 comps).1
    ∧ (metricRemoveArms M pr1 comps).2 = (metricRemoveArms M pr2 comps).2 := by
  rcases comps with _ | ⟨t, _ | ⟨f, _ | ⟨x, r⟩⟩⟩
  all_goals constructor
  all_goals simp only [metricRemoveArms]
  all_goals try split_ifs
  all_goals first
    | exact exceptOutcomeMatches_refl _
    | trivial

/-- Claim C10, counterexample: the two VrlTarget implementations are not
behaviorally equivalent.  Wrapping the same log event (empty fields,
metadata `⟨[7]⟩`) and inserting a three-element array at the root, the flat
implementation succeeds — its `into_events` then fans out into 3 events —
while the module implementation returns an error and its `into_events`
yields the single unchanged event. -/
theorem C10_implementations_differ :
    VrlTargetFlat.new
        (Event.log { fields := Value.map [], metadata := ⟨[7]⟩ })
      = some (VrlTargetFlat.logEvent (Value.map []) ⟨[7]⟩)
    ∧ VrlTargetMod.new
        (Event.log { fields := Value.map [], metadata := ⟨[7]⟩ })
      = VrlTargetMod.log
          (LogTarget.event { fields := Value.map [], metadata := ⟨[7]⟩ })
    ∧ (vrlTargetFlatInsert (VrlTargetFlat.logEvent (Value.map []) ⟨[7]⟩) []
        (Value.array [Value.integer 1, Value.integer 2, Value.integer 3])).1
      = Except.ok ()
    ∧ vrlTargetModInsert
        (VrlTargetMod.log
          (LogTarget.event { fields := Value.map [], metadata := ⟨[7]⟩ }))
        [] (Value.array [Value.integer 1, Value.integer 2, Value.integer 3])
      = some
          (Except.error "Cannot insert as root of Event unless it is a map.",
            VrlTargetMod.log
              (LogTarget.event { fields := Value.map [], metadata := ⟨[7]⟩ }))
    ∧ (vrlTargetFlatIntoEvents
        (vrlTargetFlatInsert (VrlTargetFlat.logEvent (Value.map []) ⟨[7]⟩) []
          (Value.array
            [Value.integer 1, Value.integer 2, Value.integer 3])).2).length = 3
    ∧ (vrlTargetModIntoEvents
        (VrlTargetMod.log
          (LogTarget.event { fields := Value.map [], metadata := ⟨[7]⟩ }))).length
      = 1 := ⟨rfl, rfl, rfl, rfl, rfl, rfl⟩

/-- Claim C10 as amended: the metric halves of the two implementations are
behaviorally equivalent — on every field path, `insert`, `get` and `remove`
agree in outcome (same success value, or an error in both; the printed
error paths differ) and produce the same resulting metric, and
`into_events` yields the same single event — while the log halves diverge
at root insertion as exhibited by the counterexample. -/
theorem C10_metric_adapters_equivalent (M : Metric) (p : List String)
    (v : Value) (c : Bool) :
    exceptOutcomeMatches (flatMetricInsert M p v).1 (metricTargetInsert M p v).1
    ∧ (flatMetricInsert M p v).2 = (metricTargetInsert M p v).2
    ∧ exceptOutcomeMatches (flatMetricGet M p) (metricTargetGet M p)
    ∧ exceptOutcomeMatches (flatMetricRemove M p c).1
        (metricTargetRemove M p c).1
    ∧ (flatMetricRemove M p c).2 = (metricTargetRemove M p c).2
    ∧ vrlTargetFlatIntoEvents (VrlTargetFlat.metric M)
      = vrlTargetModIntoEvents (VrlTargetMod.metric M) := by
  refine ⟨?_, ?_, ?_, ?_, ?_, rfl⟩ <;>
    rcases p with _ | ⟨a, _ | ⟨b, _ | ⟨c2, _ | ⟨d, r⟩⟩⟩⟩ <;>
      simp only [flatMetricInsert, metricTargetInsert, flatMetricGet,
        metricTargetGet, flatMetricRemove, metricTargetRemove,
        toAlternativeComponents, maxMetricPathDepth, List.take,
        List.head?, List.cons_ne_nil, ite_false, if_neg, if_pos,
        not_false_eq_true, reduceIte] <;>
      first
        | exact (metricInsertArms_printed M _ v _ _).1
        | exact (metricInsertArms_printed M _ v _ _).2
        | exact (metricGetArms_printed M _ _ _)
        | exact (metricRemoveArms_printed M _ _ _).1
        | exact (metricRemoveArms_printed M _ _ _).2
        | trivial
